import Mathlib

/-!
Verification of the SRP-6a client core (`src/src/lib.rs`) against its
natural-language specification.

Shallow embedding conventions:
* `BigUint` becomes `Nat`; `modpow b e n` becomes `b ^ e % n` (arbitrary-precision
  arithmetic is an external collaborator of the crate, assumed correct).
* Byte strings (`&[u8]`, `Vec<u8>`) become `List Nat`; `BigUint::to_bytes_be` /
  `from_bytes_be` become `toBytesBE` / `fromBytesBE` (`to_bytes_be 0` is `[0x00]`,
  one zero byte, as in `num_bigint`).
* The `Digest` trait (incremental update / fixed-size finalize) becomes a `HashFn`:
  an arbitrary function on byte strings with a fixed output length; a sequence of
  `update` calls followed by `finalize` is the hash of the concatenation.
* Rust panics (slice-length subtraction underflow and the matching
  `copy_from_slice` length mismatch in `compute_k` / `compute_m1`) are modelled as
  `Option.none`; in `process_reply` they can only occur after the `b_pub` check.
* `SrpClient<D>` carries only its group and hash choice, so its methods are
  embedded as functions taking the group and the `HashFn` explicitly.
-/

/-- Embedding of the `Digest` trait: a hash over byte strings with a fixed
output size (`Output<D>` has a fixed length for every input). -/
structure HashFn where
  h : List Nat → List Nat
  outLen : Nat
  h_len : ∀ l, (h l).length = outLen

/-- Embedding of `SrpGroup { n: BigUint, g: BigUint }`. -/
structure SrpGroup where
  n : Nat
  g : Nat

/-- Embedding of `SrpAuthError`. -/
inductive SrpAuthError where
  | IllegalParameter : String → SrpAuthError
  | BadRecordMac : String → SrpAuthError
deriving DecidableEq

/-- Embedding of `SrpClientVerifier<D>`: the proof holder with fields
`m1`, `m2`, `key`. -/
structure SrpClientVerifier where
  m1 : List Nat
  m2 : List Nat
  key : List Nat
deriving DecidableEq

instance {ε α : Type} [DecidableEq ε] [DecidableEq α] : DecidableEq (Except ε α) := fun a b =>
  match a, b with
  | Except.error e, Except.error f =>
      if h : e = f then Decidable.isTrue (congrArg Except.error h)
      else Decidable.isFalse (fun hc => h (Except.error.inj hc))
  | Except.ok x, Except.ok y =>
      if h : x = y then Decidable.isTrue (congrArg Except.ok h)
      else Decidable.isFalse (fun hc => h (Except.ok.inj hc))
  | Except.error _, Except.ok _ => Decidable.isFalse (fun hc => Except.noConfusion hc)
  | Except.ok _, Except.error _ => Decidable.isFalse (fun hc => Except.noConfusion hc)

/-- Big-endian base-256 digits of `n`, empty for `0`; fuel-based so that it is
structurally recursive (the fuel `n` itself always suffices). -/
def toBytesBEAux : Nat → Nat → List Nat
  | 0, _ => []
  | fuel + 1, n => if n = 0 then [] else toBytesBEAux fuel (n / 256) ++ [n % 256]

/-- Embedding of `BigUint::to_bytes_be`: minimal big-endian bytes, with `[0]`
for zero (num_bigint returns one zero byte for zero). -/
def toBytesBE (n : Nat) : List Nat :=
  if n = 0 then [0] else toBytesBEAux n n

/-- Embedding of `BigUint::from_bytes_be`. -/
def fromBytesBE (l : List Nat) : Nat :=
  l.foldl (fun acc b => acc * 256 + b) 0

/-- Embedding of writing `src` into the tail of `buf`
(`buf[buf.len()-src.len()..].copy_from_slice(src)`); `none` models the panic
from the length subtraction / length mismatch when `src` is longer. -/
def writeSuffix (buf src : List Nat) : Option (List Nat) :=
  if src.length ≤ buf.length then some (buf.take (buf.length - src.length) ++ src) else none

/-- Embedding of `compute_u`: `H(a_pub ‖ b_pub)` as a big-endian integer. -/
def computeU (H : HashFn) (a_pub b_pub : List Nat) : Nat :=
  fromBytesBE (H.h (a_pub ++ b_pub))

/-- Embedding of `compute_k`: hash the modulus bytes and the generator bytes
written into the tail of a zero buffer of the modulus's length; `none` models
the panic when the generator encoding is longer than the modulus encoding. -/
def computeK (H : HashFn) (p : SrpGroup) : Option Nat :=
  let n := toBytesBE p.n
  let g_bytes := toBytesBE p.g
  (writeSuffix (List.replicate n.length 0) g_bytes).map
    (fun buf => fromBytesBE (H.h (n ++ buf)))

/-- Embedding of `compute_m1`: XOR of the padded-generator digest with the
modulus digest (the in-place loop `g_hash[i] ^= n_hash[i]`, total because both
digests have the hash's fixed output length), then
`H(mixer ‖ H(username) ‖ salt ‖ a_pub ‖ b_pub ‖ key)`; `none` models the panic
of `vec![0; n.len() - g_bytes.len()]` when the subtraction underflows. -/
def computeM1 (H : HashFn) (a_pub b_pub key username salt : List Nat) (p : SrpGroup) :
    Option (List Nat) :=
  let n := toBytesBE p.n
  let g_bytes := toBytesBE p.g
  if g_bytes.length ≤ n.length then
    let g := List.replicate (n.length - g_bytes.length) 0 ++ g_bytes
    let mixer := List.zipWith Nat.xor (H.h g) (H.h n)
    some (H.h (mixer ++ H.h username ++ salt ++ a_pub ++ b_pub ++ key))
  else none

/-- Embedding of `compute_m2`: `H(a_pub ‖ m1 ‖ key)`. -/
def computeM2 (H : HashFn) (a_pub m1 key : List Nat) : List Nat :=
  H.h (a_pub ++ m1 ++ key)

/-- Embedding of `SrpClient::compute_a_pub`: `g^a mod N`. -/
def computeAPub (p : SrpGroup) (a : Nat) : Nat :=
  p.g ^ a % p.n

/-- Embedding of `SrpClient::compute_identity_hash`: `H(username ‖ ":" ‖ password)`
(`0x3a` is the ASCII colon). -/
def computeIdentityHash (H : HashFn) (username password : List Nat) : List Nat :=
  H.h (username ++ [58] ++ password)

/-- Embedding of `SrpClient::compute_x`: `H(salt ‖ identity_hash)` as an integer. -/
def computeX (H : HashFn) (identity_hash salt : List Nat) : Nat :=
  fromBytesBE (H.h (salt ++ identity_hash))

/-- Embedding of `SrpClient::compute_premaster_secret`. -/
def computePremasterSecret (p : SrpGroup) (b_pub k x a u : Nat) : Nat :=
  let base := (k * (p.g ^ x % p.n)) % p.n
  let base2 := (p.n + b_pub - base) % p.n
  let exp := u * x + a
  base2 ^ exp % p.n

/-- Embedding of `SrpClient::compute_v`: `g^x mod N`. -/
def computeV (p : SrpGroup) (x : Nat) : Nat :=
  p.g ^ x % p.n

/-- Embedding of `SrpClient::compute_verifier`. -/
def computeVerifier (H : HashFn) (p : SrpGroup) (username password salt : List Nat) :
    List Nat :=
  toBytesBE (computeV p (computeX H (computeIdentityHash H username password) salt))

/-- Embedding of `SrpClient::compute_public_ephemeral`. -/
def computePublicEphemeral (p : SrpGroup) (a : List Nat) : List Nat :=
  toBytesBE (computeAPub p (fromBytesBE a))

/-- Embedding of `SrpClient::process_reply`; the outer `Option` layer models the
panics of `compute_k` / `compute_m1` on a degenerate group, which can only occur
after the `b_pub % n == 0` check has passed. -/
def processReply (H : HashFn) (p : SrpGroup) (a_bytes username password salt b_pub_bytes : List Nat) :
    Option (Except SrpAuthError SrpClientVerifier) :=
  let a := fromBytesBE a_bytes
  let a_pub := computeAPub p a
  let b_pub := fromBytesBE b_pub_bytes
  if b_pub % p.n = 0 then
    some (Except.error (SrpAuthError.IllegalParameter "b_pub"))
  else
    match computeK H p with
    | none => none
    | some k =>
      let u := computeU H (toBytesBE a_pub) (toBytesBE b_pub)
      let identity_hash := computeIdentityHash H [] password
      let x := computeX H identity_hash salt
      let key := H.h (toBytesBE (computePremasterSecret p b_pub k x a u))
      match computeM1 H (toBytesBE a_pub) (toBytesBE b_pub) key username salt p with
      | none => none
      | some m1 =>
        some (Except.ok ⟨m1, computeM2 H (toBytesBE a_pub) m1 key, key⟩)

/-- Embedding of `SrpClientVerifier::verify_server`; `ct_eq` on byte slices is
true exactly on equal length and equal contents (its constant-time nature is a
timing property with no value-level content). -/
def verifyServer (v : SrpClientVerifier) (reply : List Nat) : Except SrpAuthError Unit :=
  if v.m2 = reply then Except.ok () else Except.error (SrpAuthError.BadRecordMac "server")

/-- Spec-side restatement of `premaster_secret` over the integers, where the
spec's subtraction `N + B − base` is genuine subtraction: `base = (k * g^x mod N)
mod N`, `diff = (N + B − base) mod N`, result `diff^(u*x + a) mod N`. -/
def premasterSecretSpec (p : SrpGroup) (b_pub k x a u : Nat) : Int :=
  let base : Int := ((k : Int) * ((p.g : Int) ^ x % (p.n : Int))) % (p.n : Int)
  let diff : Int := ((p.n : Int) + (b_pub : Int) - base) % (p.n : Int)
  diff ^ (u * x + a) % (p.n : Int)

/-- Spec-side restatement of `derive_k(group)`: left-pad the generator bytes
with zeros to the modulus-byte length and hash `N_bytes ‖ padded_g`. -/
def deriveKSpec (H : HashFn) (p : SrpGroup) : Nat :=
  let n_bytes := toBytesBE p.n
  let padded_g := List.replicate (n_bytes.length - (toBytesBE p.g).length) 0 ++ toBytesBE p.g
  fromBytesBE (H.h (n_bytes ++ padded_g))

/-- Spec-side restatement of `derive_m1`: the mixer is the byte-by-byte XOR of
`H(N_bytes)` and `H(padded_g)`, and the result is
`H(mixer ‖ H(username) ‖ salt ‖ A ‖ B ‖ K)`. -/
def deriveM1Spec (H : HashFn) (a_pub b_pub key username salt : List Nat) (p : SrpGroup) :
    List Nat :=
  let n_bytes := toBytesBE p.n
  let padded_g := List.replicate (n_bytes.length - (toBytesBE p.g).length) 0 ++ toBytesBE p.g
  let mixer := List.zipWith Nat.xor (H.h n_bytes) (H.h padded_g)
  H.h (mixer ++ H.h username ++ salt ++ a_pub ++ b_pub ++ key)

/-- Reference SRP-6a server for one exchange, following the spec's round-trip
property: seeded with the stored verifier bytes and the client's public
ephemeral bytes, it picks ephemeral secret `b`, publishes
`B = (k*v + g^b) mod N`, derives `u = H(A_bytes ‖ B_bytes)` and the premaster
secret `(A * v^u)^b mod N`, and hashes it into its session key. Returns
`(B_bytes, session key)`; `none` when `derive_k` is undefined for the group. -/
def serverExchange (H : HashFn) (p : SrpGroup) (v_bytes a_pub_bytes : List Nat) (b : Nat) :
    Option (List Nat × List Nat) :=
  (computeK H p).map (fun k =>
    let v := fromBytesBE v_bytes
    let bb := (k * v + p.g ^ b) % p.n
    let u := fromBytesBE (H.h (a_pub_bytes ++ toBytesBE bb))
    let s := (fromBytesBE a_pub_bytes * v ^ u) ^ b % p.n
    (toBytesBE bb, H.h (toBytesBE s)))

/-- A small hash for concrete evaluations: one output byte, the sum of the
input bytes plus one, reduced mod 19. -/
def sumHash : HashFn :=
  ⟨fun l => [(l.foldl (· + ·) 0 + 1) % 19], 1, fun _ => rfl⟩

/-- A degenerate constant hash (always `[1]`) for concrete evaluations. -/
def constHash : HashFn :=
  ⟨fun _ => [1], 1, fun _ => rfl⟩

/-- A small group for concrete evaluations: `N = 23`, `g = 5`. -/
def toyGroup : SrpGroup := ⟨23, 5⟩

/-- A degenerate group whose generator encoding (two bytes) is longer than its
modulus encoding (one byte). -/
def badGroup : SrpGroup := ⟨5, 300⟩

theorem fromBytesBE_append_singleton (l : List Nat) (b : Nat) :
    fromBytesBE (l ++ [b]) = fromBytesBE l * 256 + b := by
  simp [fromBytesBE, List.foldl_append]

theorem fromBytesBE_toBytesBEAux (fuel n : Nat) (h : n ≤ fuel) :
    fromBytesBE (toBytesBEAux fuel n) = n := by
  induction fuel generalizing n with
  | zero =>
    interval_cases n
    simp [toBytesBEAux, fromBytesBE]
  | succ fuel ih =>
    by_cases hn : n = 0
    · simp [toBytesBEAux, hn, fromBytesBE]
    · have hlt : n / 256 ≤ fuel := by
        have : n / 256 < n := Nat.div_lt_self (Nat.pos_of_ne_zero hn) (by norm_num)
        omega
      simp only [toBytesBEAux, hn, if_false, fromBytesBE_append_singleton, ih _ hlt]
      omega

/-- Parsing a big-endian encoding recovers the integer. -/
theorem fromBytesBE_toBytesBE (n : Nat) : fromBytesBE (toBytesBE n) = n := by
  by_cases hn : n = 0
  · simp [toBytesBE, hn, fromBytesBE]
  · simp [toBytesBE, hn, fromBytesBE_toBytesBEAux n n le_rfl]

theorem fromBytesBE_replicate_zero_append (m : Nat) (l : List Nat) :
    fromBytesBE (List.replicate m 0 ++ l) = fromBytesBE l := by
  induction m with
  | zero => simp
  | succ m ih => simpa [fromBytesBE, List.replicate_succ] using ih

/-- Key agreement core: feeding `compute_premaster_secret` the server value
`B = (k*v + g^b) mod N` built from the verifier `v = g^x mod N` yields the
server's premaster secret `(A * v^u)^b mod N`, `A = g^a mod N`. -/
theorem premaster_agreement (p : SrpGroup) (hn : 0 < p.n) (x a b k u : Nat) :
    computePremasterSecret p ((k * (p.g ^ x % p.n) + p.g ^ b) % p.n) k x a u
      = ((p.g ^ a % p.n) * (p.g ^ x % p.n) ^ u) ^ b % p.n := by
  show (((p.n + (k * (p.g ^ x % p.n) + p.g ^ b) % p.n - (k * (p.g ^ x % p.n)) % p.n) % p.n)
        ^ (u * x + a)) % p.n
      = (((p.g ^ a % p.n) * (p.g ^ x % p.n) ^ u) ^ b) % p.n
  set n := p.n with hn_def
  set g := p.g with hg_def
  set B := (k * (g ^ x % n) + g ^ b) % n with hB
  set base := (k * (g ^ x % n)) % n with hbase
  have hbase_lt : base < n := Nat.mod_lt _ hn
  have hle : base ≤ n + B := le_of_lt (lt_of_lt_of_le hbase_lt (Nat.le_add_right _ _))
  have hdiff : (n + B - base) ≡ g ^ b [MOD n] := by
    apply Nat.ModEq.add_right_cancel' base
    rw [Nat.sub_add_cancel hle]
    calc n + B ≡ B [MOD n] := Nat.add_modEq_left
      _ ≡ k * (g ^ x % n) + g ^ b [MOD n] := Nat.mod_modEq _ _
      _ ≡ g ^ b + base [MOD n] := by
          rw [Nat.add_comm (g ^ b) base]
          exact (Nat.mod_modEq (k * (g ^ x % n)) n).symm.add_right _
  have hdiff' : (n + B - base) % n ≡ g ^ b [MOD n] := (Nat.mod_modEq _ _).trans hdiff
  have main : (((n + B - base) % n) ^ (u * x + a))
      ≡ ((g ^ a % n) * (g ^ x % n) ^ u) ^ b [MOD n] := by
    calc (((n + B - base) % n) ^ (u * x + a))
        ≡ (g ^ b) ^ (u * x + a) [MOD n] := hdiff'.pow _
      _ = (g ^ a * (g ^ x) ^ u) ^ b := by
          rw [← pow_mul, ← pow_mul, ← pow_add, ← pow_mul]
          congr 1
          ring
      _ ≡ ((g ^ a % n) * (g ^ x % n) ^ u) ^ b [MOD n] :=
          ((Nat.mod_modEq _ _).symm.mul ((Nat.mod_modEq _ _).symm.pow u)).pow b
  exact main

/-- Claim C1: for every group with positive modulus and all integers `x`, `a`,
`b`, `u`, `k`, if a reference SRP-6a server holds `v = g^x mod N`, sends
`B = (k*v + g^b) mod N`, and computes its premaster secret as
`(A * v^u)^b mod N` with `A = g^a mod N`, then the client's
`compute_premaster_secret(B, k, x, a, u)` equals the server's premaster
secret. -/
theorem client_server_key_agreement (p : SrpGroup) (hn : 0 < p.n) (x a b k u : Nat) :
    computePremasterSecret p ((k * computeV p x + p.g ^ b) % p.n) k x a u
      = (computeAPub p a * computeV p x ^ u) ^ b % p.n :=
  premaster_agreement p hn x a b k u

/-- Witness for C1 at the toy group with `x=3`, `a=4`, `b=5`, `k=6`, `u=7`. -/
theorem client_server_key_agreement_witness :
    0 < toyGroup.n ∧
      computePremasterSecret toyGroup ((6 * computeV toyGroup 3 + toyGroup.g ^ 5) % toyGroup.n)
          6 3 4 7
        = (computeAPub toyGroup 4 * computeV toyGroup 3 ^ 7) ^ 5 % toyGroup.n :=
  ⟨by decide, client_server_key_agreement toyGroup (by decide) 3 4 5 6 7⟩

/-- Claim C2: whenever the big-endian value of `b_pub` is divisible by the
group modulus (the zero value and the empty byte string included),
`process_reply` returns the illegal-parameter error naming `"b_pub"` and no
proof holder, for all other argument values. -/
theorem process_reply_rejects_degenerate_b (H : HashFn) (p : SrpGroup) (_hn : 0 < p.n)
    (a_bytes username password salt b_pub_bytes : List Nat)
    (hdvd : p.n ∣ fromBytesBE b_pub_bytes) :
    processReply H p a_bytes username password salt b_pub_bytes
      = some (Except.error (SrpAuthError.IllegalParameter "b_pub")) := by
  have h0 : fromBytesBE b_pub_bytes % p.n = 0 := Nat.mod_eq_zero_of_dvd hdvd
  simp [processReply, h0]

/-- Claim C5: for every group with positive modulus, `compute_premaster_secret`
equals the spec's integer-level formula `diff^(u*x + a) mod N` with
`diff = (N + B − (k * (g^x mod N) mod N)) mod N`, and adding `N` before the
subtraction keeps every intermediate value nonnegative (the subtrahend never
exceeds `N + B`), so the unsigned computation is total. -/
theorem premaster_matches_spec (p : SrpGroup) (hn : 0 < p.n) (b_pub k x a u : Nat) :
    ((computePremasterSecret p b_pub k x a u : Nat) : Int)
        = premasterSecretSpec p b_pub k x a u
      ∧ (k * (p.g ^ x % p.n)) % p.n ≤ p.n + b_pub := by
  have hbase_lt : (k * (p.g ^ x % p.n)) % p.n < p.n := Nat.mod_lt _ hn
  have hle : (k * (p.g ^ x % p.n)) % p.n ≤ p.n + b_pub :=
    le_of_lt (lt_of_lt_of_le hbase_lt (Nat.le_add_right _ _))
  refine ⟨?_, hle⟩
  show ((((p.n + b_pub - (k * (p.g ^ x % p.n)) % p.n) % p.n) ^ (u * x + a) % p.n : Nat) : Int)
      = premasterSecretSpec p b_pub k x a u
  unfold premasterSecretSpec
  push_cast [Nat.cast_sub hle]
  rfl

/-- Witness for C5 at the toy group with `B=9`, `k=6`, `x=3`, `a=4`, `u=7`. -/
theorem premaster_matches_spec_witness :
    0 < toyGroup.n ∧
      (((computePremasterSecret toyGroup 9 6 3 4 7 : Nat) : Int)
          = premasterSecretSpec toyGroup 9 6 3 4 7
        ∧ (6 * (toyGroup.g ^ 3 % toyGroup.n)) % toyGroup.n ≤ toyGroup.n + 9) :=
  ⟨by decide, premaster_matches_spec toyGroup (by decide) 9 6 3 4 7⟩

/-- Claim C6: when the generator encoding is no longer than the modulus
encoding, `compute_k` is `H(N_bytes ‖ padded_g)` read as a big-endian integer,
`padded_g` being the generator bytes left-padded with zeros to the modulus-byte
length. -/
theorem compute_k_matches_spec (H : HashFn) (p : SrpGroup)
    (hg : (toBytesBE p.g).length ≤ (toBytesBE p.n).length) :
    computeK H p = some (deriveKSpec H p) := by
  unfold computeK writeSuffix deriveKSpec
  simp only [List.length_replicate, if_pos hg]
  rw [List.take_replicate, Nat.min_eq_left (Nat.sub_le _ _)]
  rfl

/-- Witness for C6 at the toy group. -/
theorem compute_k_matches_spec_witness :
    (toBytesBE toyGroup.g).length ≤ (toBytesBE toyGroup.n).length ∧
      computeK sumHash toyGroup = some (deriveKSpec sumHash toyGroup) :=
  ⟨by decide, compute_k_matches_spec sumHash toyGroup (by decide)⟩

/-- Claim C7: when the generator encoding is no longer than the modulus
encoding, `compute_m1` is `H(mixer ‖ H(username) ‖ salt ‖ A ‖ B ‖ K)` with
`mixer` the byte-by-byte XOR of `H(N_bytes)` and `H(padded_g)`. -/
theorem compute_m1_matches_spec (H : HashFn) (a_pub b_pub key username salt : List Nat)
    (p : SrpGroup) (hg : (toBytesBE p.g).length ≤ (toBytesBE p.n).length) :
    computeM1 H a_pub b_pub key username salt p
      = some (deriveM1Spec H a_pub b_pub key username salt p) := by
  unfold computeM1 deriveM1Spec
  simp only [if_pos hg, Option.some_inj]
  rw [List.zipWith_comm_of_comm Nat.xor Nat.xor_comm]

/-- Witness for C7 at the toy group with distinct one-byte arguments. -/
theorem compute_m1_matches_spec_witness :
    (toBytesBE toyGroup.g).length ≤ (toBytesBE toyGroup.n).length ∧
      computeM1 sumHash [2] [3] [4] [5] [6] toyGroup
        = some (deriveM1Spec sumHash [2] [3] [4] [5] [6] toyGroup) :=
  ⟨by decide, compute_m1_matches_spec sumHash [2] [3] [4] [5] [6] toyGroup (by decide)⟩

/-- Claim C9: `compute_k` and `compute_m1` cannot panic exactly when the
generator encoding is no longer than the modulus encoding; a degenerate group
with a longer generator encoding makes the padding-length subtraction underflow
in both. -/
theorem pad_partiality (H : HashFn) (a_pub b_pub key username salt : List Nat) (p : SrpGroup) :
    ((toBytesBE p.g).length ≤ (toBytesBE p.n).length →
        (computeK H p).isSome ∧ (computeM1 H a_pub b_pub key username salt p).isSome)
      ∧ ((toBytesBE p.n).length < (toBytesBE p.g).length →
        computeK H p = none ∧ computeM1 H a_pub b_pub key username salt p = none) := by
  constructor
  · intro hg
    constructor <;> simp [computeK, writeSuffix, computeM1, hg]
  · intro hg
    have hng : ¬ (toBytesBE p.g).length ≤ (toBytesBE p.n).length := Nat.not_le.mpr hg
    constructor <;> simp [computeK, writeSuffix, computeM1, hng]

/-- Witness for C9: the toy group satisfies the precondition and both functions
succeed there; the degenerate group violates it and both are undefined. -/
theorem pad_partiality_witness :
    ((toBytesBE toyGroup.g).length ≤ (toBytesBE toyGroup.n).length ∧
        (computeK sumHash toyGroup).isSome ∧
        (computeM1 sumHash [2] [3] [4] [5] [6] toyGroup).isSome)
      ∧ ((toBytesBE badGroup.n).length < (toBytesBE badGroup.g).length ∧
        computeK sumHash badGroup = none ∧
        computeM1 sumHash [2] [3] [4] [5] [6] badGroup = none) :=
  ⟨⟨by decide, (pad_partiality sumHash [2] [3] [4] [5] [6] toyGroup).1 (by decide)⟩,
   ⟨by decide, (pad_partiality sumHash [2] [3] [4] [5] [6] badGroup).2 (by decide)⟩⟩

/-- Claim C8: `verify_server` succeeds exactly when the reply is byte-for-byte
the stored `M2`; any difference (flipped bit or length mismatch) yields the
bad-record-MAC error naming `"server"`, and no other outcome exists. -/
theorem verify_server_iff (v : SrpClientVerifier) (reply : List Nat) :
    (verifyServer v reply = Except.ok () ↔ reply = v.m2)
      ∧ (reply ≠ v.m2 →
          verifyServer v reply = Except.error (SrpAuthError.BadRecordMac "server"))
      ∧ (verifyServer v reply = Except.ok ()
          ∨ verifyServer v reply = Except.error (SrpAuthError.BadRecordMac "server")) := by
  unfold verifyServer
  by_cases h : v.m2 = reply
  · subst h
    simp
  · have h2 : ¬ reply = v.m2 := fun hr => h hr.symm
    simp [h, h2]

/-- Witness for C8: a holder with `M2 = [2]` rejects the reply `[9]`. -/
theorem verify_server_iff_witness :
    ([9] ≠ (⟨[1], [2], [3]⟩ : SrpClientVerifier).m2) ∧
      verifyServer ⟨[1], [2], [3]⟩ [9]
        = Except.error (SrpAuthError.BadRecordMac "server") :=
  ⟨by decide, (verify_server_iff ⟨[1], [2], [3]⟩ [9]).2.1 (by decide)⟩

/-- Claim C4: `process_reply` derives `x` from the identity hash of the empty
username, so its session key (and its success or failure) is the same for any
two username arguments; only `M1` and, through it, `M2` can differ. -/
theorem session_key_ignores_username (H : HashFn) (p : SrpGroup)
    (a_bytes username1 username2 password salt b_pub_bytes : List Nat) :
    (processReply H p a_bytes username1 password salt b_pub_bytes).map
        (Except.map SrpClientVerifier.key)
      = (processReply H p a_bytes username2 password salt b_pub_bytes).map
        (Except.map SrpClientVerifier.key) := by
  unfold processReply
  by_cases h0 : fromBytesBE b_pub_bytes % p.n = 0
  · simp [h0]
  · simp only [if_neg h0]
    cases hk : computeK H p with
    | none => rfl
    | some k =>
      by_cases hg : (toBytesBE p.g).length ≤ (toBytesBE p.n).length
      · simp only [computeM1, if_pos hg, Option.map_some]
        rfl
      · simp [computeM1, hg]

/-- Claim C10: the outcome of `process_reply` depends on `a` and `b_pub` only
through the unsigned integers their big-endian bytes encode: prepending any
number of zero bytes to either argument leaves the result unchanged. -/
theorem process_reply_ignores_leading_zeros (H : HashFn) (p : SrpGroup)
    (a_bytes username password salt b_pub_bytes : List Nat) (j jb : Nat) :
    processReply H p (List.replicate j 0 ++ a_bytes) username password salt
        (List.replicate jb 0 ++ b_pub_bytes)
      = processReply H p a_bytes username password salt b_pub_bytes := by
  simp only [processReply, fromBytesBE_replicate_zero_append]

theorem computeK_some_length (H : HashFn) (p : SrpGroup) (k : Nat)
    (hk : computeK H p = some k) :
    (toBytesBE p.g).length ≤ (toBytesBE p.n).length := by
  by_contra hg
  simp [computeK, writeSuffix, hg] at hk

/-- Shape of a successful `process_reply`, projected to the session key. -/
theorem processReply_key_eq (H : HashFn) (p : SrpGroup)
    (a_bytes username password salt b_pub_bytes : List Nat) (k : Nat)
    (hk : computeK H p = some k) (hB : fromBytesBE b_pub_bytes % p.n ≠ 0) :
    (processReply H p a_bytes username password salt b_pub_bytes).map
        (Except.map SrpClientVerifier.key)
      = some (Except.ok (H.h (toBytesBE (computePremasterSecret p (fromBytesBE b_pub_bytes) k
          (computeX H (computeIdentityHash H [] password) salt) (fromBytesBE a_bytes)
          (computeU H (toBytesBE (computeAPub p (fromBytesBE a_bytes)))
            (toBytesBE (fromBytesBE b_pub_bytes))))))) := by
  have hg := computeK_some_length H p k hk
  simp only [processReply, hB, hk, computeM1, if_pos hg, if_neg, ite_false, Option.map_some]
  rfl

/-- Shape of the reference server's exchange when `derive_k` is defined. -/
theorem serverExchange_eq (H : HashFn) (p : SrpGroup) (v_bytes a_pub_bytes : List Nat)
    (b k : Nat) (hk : computeK H p = some k) :
    serverExchange H p v_bytes a_pub_bytes b
      = some (toBytesBE ((k * fromBytesBE v_bytes + p.g ^ b) % p.n),
          H.h (toBytesBE ((fromBytesBE a_pub_bytes * fromBytesBE v_bytes
              ^ fromBytesBE (H.h (a_pub_bytes
                  ++ toBytesBE ((k * fromBytesBE v_bytes + p.g ^ b) % p.n)))) ^ b % p.n))) := by
  simp [serverExchange, hk]

/-- Claim C3 (amended): for every username whose identity hash coincides with
that of the empty username (in particular the empty username itself), seeding
the reference server with `compute_verifier(username, password, salt)` and
running the exchange with the same `a` and `b` yields a server session key
equal to the `key()` of the proof holder returned by `process_reply`, provided
the server's public value does not reduce to zero mod `N`. -/
theorem round_trip_matching_password (H : HashFn) (p : SrpGroup) (hn : 0 < p.n)
    (username password salt a_bytes : List Nat) (b : Nat) (B_bytes skey : List Nat)
    (hid : computeIdentityHash H username password = computeIdentityHash H [] password)
    (hs : serverExchange H p (computeVerifier H p username password salt)
            (computePublicEphemeral p a_bytes) b = some (B_bytes, skey))
    (hB : fromBytesBE B_bytes % p.n ≠ 0) :
    (processReply H p a_bytes username password salt B_bytes).map
        (Except.map SrpClientVerifier.key) = some (Except.ok skey) := by
  cases hk : computeK H p with
  | none => simp [serverExchange, hk] at hs
  | some k =>
    rw [serverExchange_eq H p _ _ b k hk] at hs
    simp only [Option.some.injEq, Prod.mk.injEq] at hs
    obtain ⟨h1, h2⟩ := hs
    subst h1
    subst h2
    rw [processReply_key_eq H p a_bytes username password salt _ k hk hB]
    simp only [Option.some.injEq, Except.ok.injEq]
    simp only [computeVerifier, computePublicEphemeral, computeU, computeV, computeAPub,
      computeX, hid, fromBytesBE_toBytesBE]
    exact congrArg (fun z => H.h (toBytesBE z))
      (premaster_agreement p hn
        (fromBytesBE (H.h (salt ++ computeIdentityHash H [] password)))
        (fromBytesBE a_bytes) b k
        (fromBytesBE (H.h (toBytesBE (p.g ^ fromBytesBE a_bytes % p.n)
          ++ toBytesBE ((k * (p.g ^ fromBytesBE
              (H.h (salt ++ computeIdentityHash H [] password)) % p.n) + p.g ^ b) % p.n)))))

/-- Witness for the amended C3: with the empty username, matching password,
`a = [2]`, `b = 3`, the toy server and client agree on the session key. -/
theorem round_trip_matching_password_witness :
    0 < toyGroup.n ∧
      serverExchange sumHash toyGroup (computeVerifier sumHash toyGroup [] [3] [1])
          (computePublicEphemeral toyGroup [2]) 3 = some ([19], [11]) ∧
      fromBytesBE [19] % toyGroup.n ≠ 0 ∧
      (processReply sumHash toyGroup [2] [] [3] [1] [19]).map
          (Except.map SrpClientVerifier.key) = some (Except.ok [11]) :=
  ⟨by decide, by decide, by decide,
    round_trip_matching_password sumHash toyGroup (by decide) [] [3] [1] [2] 3 [19] [11]
      rfl (by decide) (by decide)⟩

/-- Counterexample to C3 as stated: with the hash `sumHash` and the nonempty
username `[7]`, the matching-password round trip produces session key `[7]` on
the server but `[10]` at the client (because `process_reply` hashes the empty
username into `x` while `compute_verifier` hashed the real one); and with the
hash `constHash`, mismatched passwords (`[3]` at registration, `[4]` at login)
produce the same session key `[1]` on both sides. -/
theorem round_trip_counterexample :
    (serverExchange sumHash toyGroup (computeVerifier sumHash toyGroup [7] [3] [1])
          (computePublicEphemeral toyGroup [2]) 3 = some ([2], [7])
        ∧ (processReply sumHash toyGroup [2] [7] [3] [1] [2]).map
            (Except.map SrpClientVerifier.key) = some (Except.ok [10])
        ∧ ([10] : List Nat) ≠ [7])
      ∧ (serverExchange constHash toyGroup (computeVerifier constHash toyGroup [7] [3] [1])
          (computePublicEphemeral toyGroup [2]) 3 = some ([15], [1])
        ∧ (processReply constHash toyGroup [2] [7] [4] [1] [15]).map
            (Except.map SrpClientVerifier.key) = some (Except.ok [1])) := by
  refine ⟨⟨?_, ?_, ?_⟩, ?_, ?_⟩ <;> decide

/-- Witness for C2: the toy group rejects the empty `b_pub` byte string. -/
theorem process_reply_rejects_degenerate_b_witness :
    0 < toyGroup.n ∧ toyGroup.n ∣ fromBytesBE [] ∧
      processReply sumHash toyGroup [2] [7] [3] [1] []
        = some (Except.error (SrpAuthError.IllegalParameter "b_pub")) :=
  ⟨by decide, by decide,
    process_reply_rejects_degenerate_b sumHash toyGroup (by decide) [2] [7] [3] [1] []
      (by decide)⟩
